import Mathlib

/-!
Shallow embedding of the `thermometers-mip-solver` repository
(`thermometers_mip_solver/puzzle.py` and `thermometers_mip_solver/solver.py`).

Cells are `(row, col)` pairs of integers (Python `int`s).  Filled-cell sets
are `Finset Cell`.  The external OR-Tools solver is modelled by its status
value and by an oracle producing candidate solutions; everything else is a
direct translation of the Python source.
-/

/-- A grid cell `(row, col)`, as in the Python tuples. -/
abbrev Cell : Type := ℤ × ℤ

namespace Thermo

/-- The distinguishable error kinds of construction-time validation,
one per `raise ValueError` site of `puzzle.py` (named as in the spec). -/
inductive PuzzleError where
  | EmptyDimension
  | NegativeSum
  | SumMismatch
  | SumExceedsDimension
  | NoThermometers
  | EmptyThermometer
  | DisconnectedThermometer
  | OutOfBounds
  | OverlappingCoverage
  | IncompleteCoverage
  deriving DecidableEq, Repr

/-- Model of the `Thermometer._validate_connectivity` adjacency test for one pair:
`abs(r1 - r2) + abs(c1 - c2) == 1`. -/
def adjacent (p q : Cell) : Prop :=
  (p.1 - q.1).natAbs + (p.2 - q.2).natAbs = 1

instance : DecidablePred fun pq : Cell × Cell => adjacent pq.1 pq.2 := by
  intro pq; unfold adjacent; infer_instance

instance (p q : Cell) : Decidable (adjacent p q) := by
  unfold adjacent; infer_instance

/-- The loop of `Thermometer._validate_connectivity`: every consecutive
pair of positions must be adjacent. -/
def connectivityOk : List Cell → Bool
  | [] => true
  | [_] => true
  | p :: q :: rest => decide (adjacent p q) && connectivityOk (q :: rest)

/-- Model of `Thermometer`: an id and the ordered cell path from bulb to top. -/
structure Thermometer where
  id : ℕ
  positions : List Cell
  deriving DecidableEq, Repr

/-- Model of `Thermometer.__init__`: empty check, duplicate check
(`len(set(positions)) != len(positions)`), then connectivity validation.
Duplicate and connectivity failures are both the spec's
`DisconnectedThermometer` kind. -/
def mkThermometer (tid : ℕ) (positions : List Cell) :
    Except PuzzleError Thermometer :=
  if positions = [] then .error .EmptyThermometer
  else if positions.dedup.length ≠ positions.length then
    .error .DisconnectedThermometer
  else if connectivityOk positions then .ok ⟨tid, positions⟩
  else .error .DisconnectedThermometer

/-- Model of `Thermometer.is_valid_fill_state`: restrict the filled set to the path
(`our_filled`), accept the empty restriction, otherwise sort the member
indices (`positions.index(pos)`) and compare with `range(len(...))`. -/
def is_valid_fill_state (positions : List Cell) (filled : Finset Cell) : Bool :=
  let ourFilled := positions.filter fun pos => decide (pos ∈ filled)
  if ourFilled = [] then true
  else
    let filledIndices :=
      List.insertionSort (· ≤ ·) (ourFilled.map fun pos => positions.indexOf pos)
    decide (filledIndices = List.range filledIndices.length)

/-- Model of `ThermometerPuzzle`: dimensions, targets and thermometers. -/
structure ThermometerPuzzle where
  height : ℕ
  width : ℕ
  row_sums : List ℤ
  col_sums : List ℤ
  thermometers : List Thermometer
  deriving DecidableEq, Repr

/-- The thermometer-construction loop of `ThermometerPuzzle.__init__`:
per path (in order) the empty-path check, then `Thermometer(i, path)`. -/
def mkThermometers (tid : ℕ) : List (List Cell) → Except PuzzleError (List Thermometer)
  | [] => .ok []
  | path :: rest =>
    if path = [] then .error .EmptyThermometer
    else
      match mkThermometer tid path with
      | .error e => .error e
      | .ok t =>
        match mkThermometers (tid + 1) rest with
        | .error e => .error e
        | .ok ts => .ok (t :: ts)

/-- The bounds test of `_validate_grid_coverage`:
`0 <= row < height and 0 <= col < width`. -/
def inBounds (height width : ℕ) (pos : Cell) : Prop :=
  0 ≤ pos.1 ∧ pos.1 < (height : ℤ) ∧ 0 ≤ pos.2 ∧ pos.2 < (width : ℤ)

instance (h w : ℕ) (pos : Cell) : Decidable (inBounds h w pos) := by
  unfold inBounds; infer_instance

/-- Inner loop of `_validate_grid_coverage` over one thermometer's
positions: bounds check, then overlap check, then add to the visited set. -/
def checkPositions (height width : ℕ) (visited : Finset Cell) :
    List Cell → Except PuzzleError (Finset Cell)
  | [] => .ok visited
  | pos :: rest =>
    if ¬ inBounds height width pos then .error .OutOfBounds
    else if pos ∈ visited then .error .OverlappingCoverage
    else checkPositions height width (insert pos visited) rest

/-- Outer loop of `_validate_grid_coverage` over the thermometers. -/
def checkCoverage (height width : ℕ) (visited : Finset Cell) :
    List Thermometer → Except PuzzleError (Finset Cell)
  | [] => .ok visited
  | t :: ts =>
    match checkPositions height width visited t.positions with
    | .error e => .error e
    | .ok v => checkCoverage height width v ts

/-- Model of `ThermometerPuzzle.__init__`: the validation checks in source order,
then thermometer construction, then `_validate_grid_coverage` (bounds,
overlap, and the final complete-coverage count). -/
def mkPuzzle (row_sums col_sums : List ℤ) (paths : List (List Cell)) :
    Except PuzzleError ThermometerPuzzle :=
  if row_sums = [] ∨ col_sums = [] then .error .EmptyDimension
  else if (∃ s ∈ row_sums, s < 0) ∨ (∃ s ∈ col_sums, s < 0) then .error .NegativeSum
  else if row_sums.sum ≠ col_sums.sum then .error .SumMismatch
  else if ∃ s ∈ row_sums, (col_sums.length : ℤ) < s then .error .SumExceedsDimension
  else if ∃ s ∈ col_sums, (row_sums.length : ℤ) < s then .error .SumExceedsDimension
  else if paths = [] then .error .NoThermometers
  else
    match mkThermometers 0 paths with
    | .error e => .error e
    | .ok ts =>
      match checkCoverage row_sums.length col_sums.length ∅ ts with
      | .error e => .error e
      | .ok covered =>
        if covered.card ≠ row_sums.length * col_sums.length then
          .error .IncompleteCoverage
        else .ok ⟨row_sums.length, col_sums.length, row_sums, col_sums, ts⟩

/-- Row tally of `is_valid_solution`:
`sum(1 for r, _ in filled_positions if r == row)`. -/
def rowCount (filled : Finset Cell) (r : ℤ) : ℕ :=
  (filled.filter fun p => p.1 = r).card

/-- Column tally of `is_valid_solution`:
`sum(1 for _, c in filled_positions if c == col)`. -/
def colCount (filled : Finset Cell) (c : ℤ) : ℕ :=
  (filled.filter fun p => p.2 = c).card

/-- Model of `ThermometerPuzzle.is_valid_solution`: every thermometer's fill state is
valid, every row tally matches its target, every column tally matches. -/
def is_valid_solution (pz : ThermometerPuzzle) (filled : Finset Cell) : Bool :=
  (pz.thermometers.all fun t => is_valid_fill_state t.positions filled)
    && ((List.range pz.height).all fun row =>
          decide ((rowCount filled (row : ℤ) : ℤ) = pz.row_sums.getD row 0))
    && ((List.range pz.width).all fun col =>
          decide ((colCount filled (col : ℤ) : ℤ) = pz.col_sums.getD col 0))

/-- The 0/1 value a `Finset Cell` assignment gives to a cell's binary
variable (`solver.BoolVar`). -/
def cellVal (filled : Finset Cell) (pos : Cell) : ℕ :=
  if pos ∈ filled then 1 else 0

/-- The chain of `_add_thermometer_constraints` for one thermometer: for each
consecutive pair, `next_var <= current_var`. -/
def chainOk (filled : Finset Cell) : List Cell → Bool
  | [] => true
  | [_] => true
  | x :: y :: rest =>
    decide (cellVal filled y ≤ cellVal filled x) && chainOk filled (y :: rest)

/-- Satisfaction of the `_add_row_sum_constraints` family:
for each row, the sum of that row's cell variables equals the target. -/
def rowConsSat (pz : ThermometerPuzzle) (filled : Finset Cell) : Bool :=
  (List.range pz.height).all fun row =>
    decide ((((List.range pz.width).map fun col =>
        cellVal filled ((row : ℤ), (col : ℤ))).sum : ℤ) = pz.row_sums.getD row 0)

/-- Satisfaction of the `_add_col_sum_constraints` family. -/
def colConsSat (pz : ThermometerPuzzle) (filled : Finset Cell) : Bool :=
  (List.range pz.width).all fun col =>
    decide ((((List.range pz.height).map fun row =>
        cellVal filled ((row : ℤ), (col : ℤ))).sum : ℤ) = pz.col_sums.getD col 0)

/-- Satisfaction of the `_add_thermometer_constraints` family. -/
def thermoConsSat (pz : ThermometerPuzzle) (filled : Finset Cell) : Bool :=
  pz.thermometers.all fun t => chainOk filled t.positions

/-- Satisfaction of every constraint the Constraint Encoder builds
(`_setup_variables` + the three `_add_*_constraints` families). -/
def constraintsSat (pz : ThermometerPuzzle) (filled : Finset Cell) : Bool :=
  rowConsSat pz filled && colConsSat pz filled && thermoConsSat pz filled

/-- A linear at-most constraint `sum of the variables of vars <= bound`. -/
structure LinCons where
  vars : Finset Cell
  bound : ℤ
  deriving DecidableEq

/-- Satisfaction of a `LinCons` by an assignment. -/
def consSat (c : LinCons) (filled : Finset Cell) : Bool :=
  decide (((∑ p ∈ c.vars, cellVal filled p : ℕ) : ℤ) ≤ c.bound)

/-- Model of `_add_solution_cut`: for the previously found solution `S`, add
`sum(filled_vars) <= len(solution) - 1` — but only when `filled_vars`
is non-empty (`if filled_vars:`). -/
def addSolutionCut (solution : Finset Cell) : Option LinCons :=
  if solution.Nonempty then some ⟨solution, (solution.card : ℤ) - 1⟩ else none

/-- OR-Tools `pywraplp` result statuses distinguished by `solve`. -/
inductive SolverStatus where
  | optimal
  | feasible
  | infeasible
  | unbounded
  | abnormal
  | notSolved
  deriving DecidableEq, Repr

/-- The internal-consistency failures `ThermometersSolver` raises as
`RuntimeError`. -/
inductive SolveError where
  | feasibleStatus
  | duplicateSolution
  deriving DecidableEq, Repr

/-- The status dispatch of `ThermometersSolver.solve` (lines 111-128):
`OPTIMAL` extracts and returns the filled-cell set, `FEASIBLE` raises a
`RuntimeError`, every other status returns `None`.  `extracted` stands for
the set of cells whose variable has solution value 1. -/
def solveDispatch (extracted : Finset Cell) :
    SolverStatus → Except SolveError (Option (Finset Cell))
  | .optimal => .ok (some extracted)
  | .feasible => .error .feasibleStatus
  | _ => .ok none

/-- Truthiness of the Python `max_num_solutions` value
(`None` and `0` are both falsy). -/
def truthy : Option ℤ → Bool
  | none => false
  | some n => decide (n ≠ 0)

/-- The loop of `ThermometersSolver.solve_iterative`.  The external solver
(as re-invoked after each added cut) is modelled by `oracle`, giving the
result of the `it`-th `self.solve()` call; `fuel` bounds the number of
iterations we unfold (`none` = the loop was still running).  Each step:
solve; on `None` stop with the accumulated solutions; on a duplicate raise;
append; stop when `max_num_solutions and len(solutions) >= max_num_solutions`;
otherwise cut and continue. -/
def solveIterAux (oracle : ℕ → Option (Finset Cell)) (maxNum : Option ℤ) :
    ℕ → ℕ → List (Finset Cell) → Option (Except SolveError (List (Finset Cell)))
  | 0, _, _ => none
  | fuel + 1, it, acc =>
    match oracle it with
    | none => some (.ok acc)
    | some sol =>
      if sol ∈ acc then some (.error .duplicateSolution)
      else if truthy maxNum && decide (maxNum.getD 0 ≤ (acc.length + 1 : ℤ)) then
        some (.ok (acc ++ [sol]))
      else solveIterAux oracle maxNum fuel (it + 1) (acc ++ [sol])

/-- Model of `ThermometersSolver.solve_iterative`, starting from no solutions. -/
def solve_iterative (oracle : ℕ → Option (Finset Cell)) (maxNum : Option ℤ)
    (fuel : ℕ) : Option (Except SolveError (List (Finset Cell))) :=
  solveIterAux oracle maxNum fuel 0 []

/-! ### Auxiliary list lemmas for the fill-state analysis -/

theorem getD_mem_of_lt {α : Type*} (l : List α) (i : ℕ) (d : α)
    (h : i < l.length) : l.getD i d ∈ l := by
  rw [List.getD_eq_getElem l d h]; exact l.getElem_mem h

theorem getD_eq_get {α : Type*} (l : List α) (d : α) {i : ℕ}
    (h : i < l.length) : l.getD i d = l.get ⟨i, h⟩ := by
  rw [List.getD_eq_getElem l d h]; simp [List.get_eq_getElem]

theorem indexOf_cons_self_cell (x : Cell) (q : List Cell) :
    (x :: q).indexOf x = 0 := by
  simp [List.indexOf, List.findIdx_cons]

theorem indexOf_cons_ne_cell (x y : Cell) (q : List Cell) (h : x ≠ y) :
    (x :: q).indexOf y = q.indexOf y + 1 := by
  have hb : (x == y) = false := beq_eq_false_iff_ne.mpr h
  simp [List.indexOf, List.findIdx_cons, hb]

/-- Mapping `indexOf` over the filtered elements of a duplicate-free list
gives exactly the filter of the index range by the predicate at each index. -/
theorem map_indexOf_filter (f : Cell → Bool) (d : Cell) :
    ∀ (p : List Cell), p.Nodup →
      (p.filter f).map (fun x => p.indexOf x)
        = (List.range p.length).filter (fun i => f (p.getD i d))
  | [], _ => by simp
  | x :: q, h => by
    have hx : x ∉ q := (List.nodup_cons.mp h).1
    have hq : q.Nodup := (List.nodup_cons.mp h).2
    have ih := map_indexOf_filter f d q hq
    have hmap : (q.filter f).map (fun y => (x :: q).indexOf y)
        = ((q.filter f).map (fun y => q.indexOf y)).map (fun n => n + 1) := by
      rw [List.map_map]
      refine List.map_congr_left ?_
      intro y hy
      have hyq : y ∈ q := List.mem_of_mem_filter hy
      have hxy : x ≠ y := fun e => hx (e ▸ hyq)
      simp [Function.comp, indexOf_cons_ne_cell x y q hxy]
    have hshift : ((List.range q.length).map Nat.succ).filter
          (fun i => f ((x :: q).getD i d))
        = ((List.range q.length).filter (fun i => f (q.getD i d))).map Nat.succ := by
      rw [List.filter_map]
      refine congrArg (List.map Nat.succ) (List.filter_congr ?_)
      intro i _
      show f ((x :: q).getD (i + 1) d) = f (q.getD i d)
      rw [List.getD_cons_succ]
    have hrange : (List.range (x :: q).length).filter (fun i => f ((x :: q).getD i d))
        = (if f x then [0] else [])
            ++ ((List.range q.length).filter (fun i => f (q.getD i d))).map Nat.succ := by
      rw [List.length_cons, List.range_succ_eq_map, List.filter_cons, ← hshift,
        List.getD_cons_zero]
      by_cases hfx : f x = true
      · simp [hfx]
      · simp [hfx]
    rw [hrange, List.filter_cons]
    by_cases hfx : f x = true
    · rw [if_pos hfx, if_pos hfx, List.map_cons, indexOf_cons_self_cell, hmap, ih]
      rfl
    · rw [if_neg hfx, if_neg hfx, hmap, ih]
      rfl

/-- The filtered index range is strictly sorted. -/
theorem filter_range_sorted (g : ℕ → Bool) (n : ℕ) :
    List.Sorted (· ≤ ·) ((List.range n).filter g) := by
  have h1 : ((List.range n).filter g).Pairwise (· < ·) :=
    (List.pairwise_lt_range n).sublist (List.filter_sublist _)
  exact h1.imp le_of_lt

/-- Filtering the range below `n` by `i < k` yields the range below
`min k n`. -/
theorem filter_range_decide_lt (k : ℕ) :
    ∀ n : ℕ, (List.range n).filter (fun i => decide (i < k)) = List.range (min k n)
  | 0 => by simp
  | n + 1 => by
    have ih := filter_range_decide_lt k n
    rw [List.range_succ, List.filter_append, ih]
    by_cases h : n < k
    · have h1 : min k n = n := by omega
      have h2 : min k (n + 1) = n + 1 := by omega
      simp [h, h1, h2, List.range_succ]
    · have h1 : min k n = k := by omega
      have h2 : min k (n + 1) = k := by omega
      simp [h, h1, h2]

/-- A filtered index range equals an initial range exactly when the
predicate holds precisely below some bound. -/
theorem filter_range_eq_range_iff (g : ℕ → Bool) (n : ℕ) :
    (List.range n).filter g
        = List.range ((List.range n).filter g).length
      ↔ ∃ k ≤ n, ∀ i < n, g i = decide (i < k) := by
  constructor
  · intro hA
    refine ⟨((List.range n).filter g).length, ?_, ?_⟩
    · calc ((List.range n).filter g).length ≤ (List.range n).length :=
            List.length_filter_le _ _
        _ = n := List.length_range n
    · intro i hi
      rw [Bool.eq_iff_iff, decide_eq_true_eq]
      constructor
      · intro hgi
        have : i ∈ (List.range n).filter g :=
          List.mem_filter.mpr ⟨List.mem_range.mpr hi, hgi⟩
        rw [hA] at this
        exact List.mem_range.mp this
      · intro hik
        have : i ∈ (List.range n).filter g := by
          rw [hA]; exact List.mem_range.mpr hik
        exact (List.mem_filter.mp this).2
  · rintro ⟨k, hk, hg⟩
    have h1 : (List.range n).filter g
        = (List.range n).filter (fun i => decide (i < k)) :=
      List.filter_congr fun i hi => hg i (List.mem_range.mp hi)
    rw [h1, filter_range_decide_lt, Nat.min_eq_left hk, List.length_range]

/-- Lemma: `is_valid_fill_state` accepts a duplicate-free path exactly when the
filled positions occupy the indices below some bound. -/
theorem is_valid_fill_state_iff (p : List Cell) (filled : Finset Cell)
    (hnd : p.Nodup) :
    is_valid_fill_state p filled = true
      ↔ ∃ k ≤ p.length, ∀ i < p.length,
          decide (p.getD i ((0 : ℤ), (0 : ℤ)) ∈ filled) = decide (i < k) := by
  show (if p.filter (fun pos => decide (pos ∈ filled)) = [] then true
    else decide (List.insertionSort (· ≤ ·)
        ((p.filter fun pos => decide (pos ∈ filled)).map fun pos => p.indexOf pos)
      = List.range (List.insertionSort (· ≤ ·)
        ((p.filter fun pos => decide (pos ∈ filled)).map
          fun pos => p.indexOf pos)).length)) = true ↔ _
  by_cases hemp : p.filter (fun pos => decide (pos ∈ filled)) = []
  · rw [if_pos hemp]
    refine iff_of_true rfl ⟨0, Nat.zero_le _, ?_⟩
    intro i hi
    have hmem := getD_mem_of_lt p i ((0 : ℤ), (0 : ℤ)) hi
    have hnot : ¬ (decide (p.getD i ((0 : ℤ), (0 : ℤ)) ∈ filled) = true) :=
      List.filter_eq_nil_iff.mp hemp _ hmem
    rw [Bool.not_eq_true] at hnot
    rw [hnot, decide_eq_false (show ¬ i < 0 by omega)]
  · rw [if_neg hemp]
    rw [map_indexOf_filter (fun pos => decide (pos ∈ filled)) ((0 : ℤ), (0 : ℤ)) p hnd,
      (filter_range_sorted _ _).insertionSort_eq, decide_eq_true_eq]
    exact filter_range_eq_range_iff _ _

/-- The 0/1 variable ordering is implication of membership. -/
theorem cellVal_le_iff (filled : Finset Cell) (x y : Cell) :
    cellVal filled y ≤ cellVal filled x ↔ (y ∈ filled → x ∈ filled) := by
  unfold cellVal
  by_cases hy : y ∈ filled <;> by_cases hx : x ∈ filled <;> simp [hx, hy]

/-- The consecutive-pair variable chain holds exactly when the filled
positions occupy the indices below some bound. -/
theorem chainOk_iff (filled : Finset Cell) :
    ∀ p : List Cell, (chainOk filled p = true
      ↔ ∃ k ≤ p.length, ∀ i < p.length,
          decide (p.getD i ((0 : ℤ), (0 : ℤ)) ∈ filled) = decide (i < k))
  | [] => by
    refine iff_of_true rfl ⟨0, Nat.zero_le _, ?_⟩
    intro i hi
    exact absurd hi (by simp)
  | [x] => by
    refine iff_of_true rfl ?_
    by_cases hx : x ∈ filled
    · refine ⟨1, by simp, ?_⟩
      intro i hi
      have hi0 : i = 0 := by simpa using hi
      subst hi0
      rw [List.getD_cons_zero, decide_eq_true hx,
        decide_eq_true (show (0 : ℕ) < 1 by omega)]
    · refine ⟨0, Nat.zero_le _, ?_⟩
      intro i hi
      have hi0 : i = 0 := by simpa using hi
      subst hi0
      rw [List.getD_cons_zero, decide_eq_false hx,
        decide_eq_false (show ¬ (0 : ℕ) < 0 by omega)]
  | x :: y :: rest => by
    have ih := chainOk_iff filled (y :: rest)
    constructor
    · intro h
      have h2 := (Bool.and_eq_true _ _).mp h
      have himp : y ∈ filled → x ∈ filled :=
        (cellVal_le_iff filled x y).mp (of_decide_eq_true h2.1)
      obtain ⟨k', hk', hAll'⟩ := ih.mp h2.2
      by_cases hx : x ∈ filled
      · refine ⟨k' + 1, by simpa using Nat.succ_le_succ hk', ?_⟩
        intro i hi
        cases i with
        | zero =>
          rw [List.getD_cons_zero, decide_eq_true hx,
            decide_eq_true (show 0 < k' + 1 by omega)]
        | succ j =>
          have hj : j < (y :: rest).length := by
            simpa using Nat.lt_of_succ_lt_succ hi
          rw [List.getD_cons_succ, hAll' j hj]
          exact decide_eq_decide.mpr (by omega)
      · have hy : y ∉ filled := fun hy => hx (himp hy)
        have hk'0 : k' = 0 := by
          have h0 := hAll' 0 (by simp)
          rw [List.getD_cons_zero, decide_eq_false hy] at h0
          have := of_decide_eq_false h0.symm
          omega
        refine ⟨0, Nat.zero_le _, ?_⟩
        intro i hi
        cases i with
        | zero =>
          rw [List.getD_cons_zero, decide_eq_false hx,
            decide_eq_false (show ¬ (0 : ℕ) < 0 by omega)]
        | succ j =>
          have hj : j < (y :: rest).length := by
            simpa using Nat.lt_of_succ_lt_succ hi
          rw [List.getD_cons_succ, hAll' j hj, hk'0]
          rw [decide_eq_false (show ¬ j < 0 by omega),
            decide_eq_false (show ¬ j + 1 < 0 by omega)]
    · rintro ⟨k, hk, hAll⟩
      rw [chainOk, Bool.and_eq_true]
      refine ⟨?_, ?_⟩
      · rw [decide_eq_true_eq, cellVal_le_iff]
        intro hy
        have h1 := hAll 1 (by simp)
        have h0 := hAll 0 (by simp)
        rw [List.getD_cons_succ, List.getD_cons_zero, decide_eq_true hy] at h1
        rw [List.getD_cons_zero] at h0
        have h1k : 1 < k := of_decide_eq_true h1.symm
        have : decide (x ∈ filled) = true := by
          rw [h0]; exact decide_eq_true (by omega)
        exact of_decide_eq_true this
      · refine ih.mpr ⟨k - 1, by simp only [List.length_cons] at hk ⊢; omega, ?_⟩
        intro j hj
        have hjj := hAll (j + 1) (by simpa using Nat.succ_lt_succ hj)
        rw [List.getD_cons_succ] at hjj
        rw [hjj]
        exact decide_eq_decide.mpr (by omega)

/-- If the filled positions are exactly those below a bound, the filter is
the corresponding `take`. -/
theorem filter_eq_take_of {α : Type*} (f : α → Bool) (d : α) :
    ∀ (p : List α) (k : ℕ), k ≤ p.length →
      (∀ i < p.length, f (p.getD i d) = decide (i < k)) → p.filter f = p.take k
  | [], k, _, _ => by simp
  | x :: q, 0, _, hAll => by
    have hnone : ∀ y ∈ x :: q, ¬ (f y = true) := by
      intro y hy
      obtain ⟨⟨j, hj⟩, rfl⟩ := List.mem_iff_get.mp hy
      rw [← getD_eq_get (x :: q) d hj, hAll j hj,
        decide_eq_false (show ¬ j < 0 by omega)]
      simp
    rw [List.filter_eq_nil_iff.mpr hnone, List.take_zero]
  | x :: q, k + 1, hk, hAll => by
    have hx : f x = true := by
      have h0 := hAll 0 (by simp)
      rw [List.getD_cons_zero] at h0
      rw [h0]
      exact decide_eq_true (by omega)
    have ih := filter_eq_take_of f d q k
      (by simpa using Nat.le_of_succ_le_succ (by simpa using hk))
      (fun i hi => by
        have hs := hAll (i + 1) (by simpa using Nat.succ_lt_succ hi)
        rw [List.getD_cons_succ] at hs
        rw [hs]
        exact decide_eq_decide.mpr (by omega))
    rw [List.filter_cons, if_pos hx, List.take_succ_cons, ih]

/-- Conversely, over a duplicate-free list, a filter that is a `take` means
the predicate holds exactly below the corresponding bound. -/
theorem take_eq_filter_bound {α : Type*} (f : α → Bool) (d : α) (p : List α)
    (hnd : p.Nodup) (k : ℕ) (hfk : p.filter f = p.take k) :
    ∀ i < p.length, f (p.getD i d) = decide (i < min k p.length) := by
  intro i hi
  by_cases him : i < min k p.length
  · have hlt : i < (p.take k).length := by
      rw [List.length_take]; omega
    have hget : (p.take k).get ⟨i, hlt⟩ = p.get ⟨i, hi⟩ := by
      simp [List.get_eq_getElem, List.getElem_take]
    have hmem : p.get ⟨i, hi⟩ ∈ p.take k := hget ▸ List.get_mem _ _ _
    rw [← hfk] at hmem
    rw [getD_eq_get p d hi, (List.mem_filter.mp hmem).2, decide_eq_true him]
  · rw [decide_eq_false him]
    by_contra hft
    rw [Bool.not_eq_false] at hft
    have hmem : p.getD i d ∈ p.filter f :=
      List.mem_filter.mpr ⟨getD_mem_of_lt p i d hi, hft⟩
    rw [hfk] at hmem
    obtain ⟨⟨j, hj⟩, hget⟩ := List.mem_iff_get.mp hmem
    have hjlen : j < p.length := by
      have := hj; rw [List.length_take] at this; omega
    have hgj : (p.take k).get ⟨j, hj⟩ = p.get ⟨j, hjlen⟩ := by
      simp [List.get_eq_getElem, List.getElem_take]
    have hij : p.get ⟨j, hjlen⟩ = p.get ⟨i, hi⟩ := by
      rw [← hgj, hget, getD_eq_get p d hi]
    have : (⟨j, hjlen⟩ : Fin p.length) = ⟨i, hi⟩ :=
      (List.Nodup.get_inj_iff hnd).mp hij
    have hji : j = i := by simpa using this
    have hjk : j < min k p.length := by rw [List.length_take] at hj; omega
    omega

/-- C3: for every thermometer path (non-empty, duplicate-free, pairwise
adjacent) and every 0/1 assignment to its cells (given by the filled set),
the pairwise chain `variable(i+1) <= variable(i)` holds iff the validator's
`is_valid_fill_state` accepts the filled set, and iff the filled cells of
the path form a prefix of the path starting at the bulb. -/
theorem claim_C3 (p : List Cell) (filled : Finset Cell)
    (hne : p ≠ []) (hnd : p.Nodup) (hadj : connectivityOk p = true) :
    (chainOk filled p = true ↔ is_valid_fill_state p filled = true)
    ∧ (chainOk filled p = true
        ↔ ∃ k, p.filter (fun pos => decide (pos ∈ filled)) = p.take k) := by
  have h1 := chainOk_iff filled p
  have h2 := is_valid_fill_state_iff p filled hnd
  constructor
  · rw [h1, h2]
  · rw [h1]
    constructor
    · rintro ⟨k, hk, hAll⟩
      exact ⟨k, filter_eq_take_of _ _ p k hk hAll⟩
    · rintro ⟨k, hfk⟩
      exact ⟨min k p.length, Nat.min_le_right _ _,
        take_eq_filter_bound _ _ p hnd k hfk⟩

/-- Concrete instantiation of `claim_C3` on the path `[(0,0),(0,1)]` with
the bulb filled. -/
theorem claim_C3_witness :
    chainOk {((0 : ℤ), (0 : ℤ))} [((0 : ℤ), (0 : ℤ)), (0, 1)] = true
      ↔ is_valid_fill_state [((0 : ℤ), (0 : ℤ)), (0, 1)] {((0 : ℤ), (0 : ℤ))} = true :=
  (claim_C3 [((0 : ℤ), (0 : ℤ)), (0, 1)] {((0 : ℤ), (0 : ℤ))}
    (by decide) (by decide) (by decide)).1

/-! ### Construction invariants -/

theorem mkThermometer_ok {tid : ℕ} {path : List Cell} {t : Thermometer}
    (h : mkThermometer tid path = .ok t) :
    t.positions = path ∧ path ≠ [] ∧ path.Nodup ∧ connectivityOk path = true := by
  unfold mkThermometer at h
  by_cases h1 : path = []
  · rw [if_pos h1] at h; exact absurd h (by simp)
  · rw [if_neg h1] at h
    by_cases h2 : path.dedup.length ≠ path.length
    · rw [if_pos h2] at h; exact absurd h (by simp)
    · rw [if_neg h2] at h
      by_cases h3 : connectivityOk path = true
      · rw [if_pos h3] at h
        have ht : t = ⟨tid, path⟩ := by
          cases h; rfl
        subst ht
        refine ⟨rfl, h1, ?_, h3⟩
        rw [Classical.not_not] at h2
        exact List.dedup_eq_self.mp (path.dedup_sublist.eq_of_length h2)
      · rw [if_neg h3] at h; exact absurd h (by simp)

theorem mkThermometers_ok :
    ∀ {paths : List (List Cell)} {tid : ℕ} {ts : List Thermometer},
      mkThermometers tid paths = .ok ts →
      ∀ t ∈ ts, t.positions ≠ [] ∧ t.positions.Nodup ∧
        connectivityOk t.positions = true
  | [], _, _, h => by
    cases h
    intro t ht
    exact absurd ht (by simp)
  | path :: rest, tid, ts, h => by
    rw [mkThermometers] at h
    by_cases h1 : path = []
    · rw [if_pos h1] at h; exact absurd h (by simp)
    · rw [if_neg h1] at h
      cases hmk : mkThermometer tid path with
      | error e => rw [hmk] at h; exact absurd h (by simp)
      | ok t' =>
        rw [hmk] at h
        cases hrec : mkThermometers (tid + 1) rest with
        | error e => rw [hrec] at h; exact absurd h (by simp)
        | ok ts' =>
          rw [hrec] at h
          have hts : ts = t' :: ts' := by cases h; rfl
          subst hts
          intro t ht
          rcases List.mem_cons.mp ht with rfl | htail
          · obtain ⟨hpos, hne, hnd, hconn⟩ := mkThermometer_ok hmk
            rw [hpos]
            exact ⟨hne, hnd, hconn⟩
          · exact mkThermometers_ok hrec t htail

theorem checkPositions_ok :
    ∀ {poss : List Cell} {h w : ℕ} {visited v : Finset Cell},
      checkPositions h w visited poss = .ok v → ∀ pos ∈ poss, inBounds h w pos
  | [], _, _, _, _, _ => by
    intro pos hpos
    exact absurd hpos (by simp)
  | pos0 :: rest, h, w, visited, v, hcp => by
    rw [checkPositions] at hcp
    by_cases h1 : ¬ inBounds h w pos0
    · rw [if_pos h1] at hcp; exact absurd hcp (by simp)
    · rw [if_neg h1] at hcp
      rw [Classical.not_not] at h1
      by_cases h2 : pos0 ∈ visited
      · rw [if_pos h2] at hcp; exact absurd hcp (by simp)
      · rw [if_neg h2] at hcp
        intro pos hpos
        rcases List.mem_cons.mp hpos with rfl | htail
        · exact h1
        · exact checkPositions_ok hcp pos htail

theorem checkCoverage_ok :
    ∀ {ts : List Thermometer} {h w : ℕ} {visited v : Finset Cell},
      checkCoverage h w visited ts = .ok v →
      ∀ t ∈ ts, ∀ pos ∈ t.positions, inBounds h w pos
  | [], _, _, _, _, _ => by
    intro t ht
    exact absurd ht (by simp)
  | t0 :: rest, h, w, visited, v, hcc => by
    rw [checkCoverage] at hcc
    cases hcp : checkPositions h w visited t0.positions with
    | error e => rw [hcp] at hcc; exact absurd hcc (by simp)
    | ok v' =>
      rw [hcp] at hcc
      intro t ht
      rcases List.mem_cons.mp ht with rfl | htail
      · exact checkPositions_ok hcp
      · exact checkCoverage_ok hcc t htail

theorem mkPuzzle_ok {rs cs : List ℤ} {paths : List (List Cell)}
    {pz : ThermometerPuzzle} (h : mkPuzzle rs cs paths = .ok pz) :
    pz.height = rs.length ∧ pz.width = cs.length ∧
    pz.row_sums = rs ∧ pz.col_sums = cs ∧
    mkThermometers 0 paths = .ok pz.thermometers ∧
    ∃ v, checkCoverage rs.length cs.length ∅ pz.thermometers = .ok v := by
  unfold mkPuzzle at h
  split at h
  · exact absurd h (by simp)
  split at h
  · exact absurd h (by simp)
  split at h
  · exact absurd h (by simp)
  split at h
  · exact absurd h (by simp)
  split at h
  · exact absurd h (by simp)
  split at h
  · exact absurd h (by simp)
  split at h
  · exact absurd h (by simp)
  rename_i ts hts
  split at h
  · exact absurd h (by simp)
  rename_i covered hcov
  split at h
  · exact absurd h (by simp)
  have hpz : pz = ⟨rs.length, cs.length, rs, cs, ts⟩ := by
    cases h; rfl
  subst hpz
  exact ⟨rfl, rfl, rfl, rfl, hts, ⟨covered, hcov⟩⟩

/-- The error kind (if any) the per-path checks of thermometer construction
produce for a single path: empty path, duplicate cells, non-adjacent cells,
in source order. -/
def pathErr (path : List Cell) : Option PuzzleError :=
  if path = [] then some .EmptyThermometer
  else if path.dedup.length ≠ path.length then some .DisconnectedThermometer
  else if connectivityOk path then none
  else some .DisconnectedThermometer

theorem mkThermometer_of_pathErr_none {path : List Cell} (tid : ℕ)
    (h : pathErr path = none) : mkThermometer tid path = .ok ⟨tid, path⟩ := by
  unfold pathErr at h
  unfold mkThermometer
  by_cases h1 : path = []
  · rw [if_pos h1] at h; exact absurd h (by simp)
  · rw [if_neg h1] at h ⊢
    by_cases h2 : path.dedup.length ≠ path.length
    · rw [if_pos h2] at h; exact absurd h (by simp)
    · rw [if_neg h2] at h ⊢
      by_cases h3 : connectivityOk path = true
      · rw [if_pos h3]
      · rw [if_neg h3] at h; exact absurd h (by simp)

theorem mkThermometer_of_pathErr_some {path : List Cell} (tid : ℕ)
    {e : PuzzleError} (hne : path ≠ []) (h : pathErr path = some e) :
    mkThermometer tid path = .error e := by
  unfold pathErr at h
  unfold mkThermometer
  rw [if_neg hne] at h ⊢
  by_cases h2 : path.dedup.length ≠ path.length
  · rw [if_pos h2] at h ⊢
    cases h; rfl
  · rw [if_neg h2] at h ⊢
    by_cases h3 : connectivityOk path = true
    · rw [if_pos h3] at h; exact absurd h (by simp)
    · rw [if_neg h3] at h ⊢
      cases h; rfl

/-- All positions of a constructed puzzle's thermometers are duplicate-free
and within grid bounds. -/
theorem mkPuzzle_thermometers {rs cs : List ℤ} {paths : List (List Cell)}
    {pz : ThermometerPuzzle} (h : mkPuzzle rs cs paths = .ok pz) :
    ∀ t ∈ pz.thermometers, t.positions ≠ [] ∧ t.positions.Nodup ∧
      ∀ pos ∈ t.positions, inBounds pz.height pz.width pos := by
  obtain ⟨hh, hw, _, _, hts, v, hcov⟩ := mkPuzzle_ok h
  intro t ht
  obtain ⟨hne, hnd, _⟩ := mkThermometers_ok hts t ht
  refine ⟨hne, hnd, ?_⟩
  rw [hh, hw]
  exact checkCoverage_ok hcov t ht

/-- C4 counterexample: with path 0 disconnected and path 1 empty, the
earliest violated check in the claimed precedence order is the empty-path
check (`EmptyThermometer`), yet construction reports
`DisconnectedThermometer`, because the per-path checks run path by path. -/
theorem claim_C4_counterexample :
    mkPuzzle [0] [0] [[((0 : ℤ), (0 : ℤ)), (0, 2)], []]
        = .error .DisconnectedThermometer
      ∧ pathErr ([] : List Cell) = some .EmptyThermometer
      ∧ PuzzleError.DisconnectedThermometer ≠ PuzzleError.EmptyThermometer := by
  refine ⟨rfl, rfl, by decide⟩

/-- The visited set after inserting a run of positions in order, as the
coverage loop does. -/
def insertAll (visited : Finset Cell) (poss : List Cell) : Finset Cell :=
  poss.foldl (fun v p => insert p v) visited

/-- The error kind (if any) the position-by-position coverage checks
produce over a run of positions, starting from a given visited set:
out-of-bounds, then overlap, per position in order. -/
def covErr (height width : ℕ) (visited : Finset Cell) :
    List Cell → Option PuzzleError
  | [] => none
  | pos :: rest =>
    if ¬ inBounds height width pos then some .OutOfBounds
    else if pos ∈ visited then some .OverlappingCoverage
    else covErr height width (insert pos visited) rest

/-- Specification-side definition of C4 (amended): the error kind of the
first violated check in execution order — the sum checks in source order,
then the per-path checks path by path (first offending path wins, via
`findSome?`), then the bounds/overlap checks position by position over the
concatenated thermometer paths, then the final coverage count. -/
def firstErr (row_sums col_sums : List ℤ) (paths : List (List Cell)) :
    Option PuzzleError :=
  if row_sums = [] ∨ col_sums = [] then some .EmptyDimension
  else if (∃ s ∈ row_sums, s < 0) ∨ (∃ s ∈ col_sums, s < 0) then some .NegativeSum
  else if row_sums.sum ≠ col_sums.sum then some .SumMismatch
  else if (∃ s ∈ row_sums, (col_sums.length : ℤ) < s)
      ∨ (∃ s ∈ col_sums, (row_sums.length : ℤ) < s) then some .SumExceedsDimension
  else if paths = [] then some .NoThermometers
  else
    match paths.findSome? pathErr with
    | some e => some e
    | none =>
      match covErr row_sums.length col_sums.length ∅ paths.flatten with
      | some e => some e
      | none =>
        if (insertAll ∅ paths.flatten).card ≠ row_sums.length * col_sums.length
        then some .IncompleteCoverage
        else none

/-- The error component of `mkPuzzle`'s result. -/
def constructionErr (row_sums col_sums : List ℤ) (paths : List (List Cell)) :
    Option PuzzleError :=
  match mkPuzzle row_sums col_sums paths with
  | .error e => some e
  | .ok _ => none

theorem pathErr_none_ne_nil {path : List Cell} (h : pathErr path = none) :
    path ≠ [] := by
  intro hcontra
  rw [hcontra] at h
  simp [pathErr] at h

/-- Lemma: thermometer construction reports the first offending path's
error kind, in path order. -/
theorem mkThermometers_findSome_some :
    ∀ (paths : List (List Cell)) (tid : ℕ) {e : PuzzleError},
      paths.findSome? pathErr = some e → mkThermometers tid paths = .error e
  | [], _, _, h => by simp [List.findSome?] at h
  | path :: rest, tid, e, h => by
    cases hpe : pathErr path with
    | some e' =>
      simp only [List.findSome?_cons, hpe] at h
      have he := Option.some.inj h
      subst he
      rw [mkThermometers]
      by_cases h1 : path = []
      · rw [if_pos h1]
        rw [h1] at hpe
        have he' := Option.some.inj hpe
        rw [← he']
      · rw [if_neg h1, mkThermometer_of_pathErr_some tid h1 hpe]
    | none =>
      simp only [List.findSome?_cons, hpe] at h
      rw [mkThermometers, if_neg (pathErr_none_ne_nil hpe),
        mkThermometer_of_pathErr_none tid hpe,
        mkThermometers_findSome_some rest (tid + 1) h]

/-- Lemma: when no path is offending, thermometer construction succeeds
and reproduces the paths as the thermometers' positions. -/
theorem mkThermometers_findSome_none :
    ∀ (paths : List (List Cell)) (tid : ℕ),
      paths.findSome? pathErr = none →
      ∃ ts, mkThermometers tid paths = .ok ts
        ∧ ts.map Thermometer.positions = paths
  | [], _, _ => ⟨[], rfl, rfl⟩
  | path :: rest, tid, h => by
    cases hpe : pathErr path with
    | some e' =>
      simp only [List.findSome?_cons, hpe] at h
      exact absurd h (by simp)
    | none =>
      simp only [List.findSome?_cons, hpe] at h
      obtain ⟨ts', hts', hmap'⟩ := mkThermometers_findSome_none rest (tid + 1) h
      refine ⟨⟨tid, path⟩ :: ts', ?_, ?_⟩
      · rw [mkThermometers, if_neg (pathErr_none_ne_nil hpe),
          mkThermometer_of_pathErr_none tid hpe, hts']
      · rw [List.map_cons, hmap']

theorem covErr_some :
    ∀ {poss : List Cell} {h w : ℕ} {visited : Finset Cell} {e : PuzzleError},
      covErr h w visited poss = some e →
      checkPositions h w visited poss = .error e
  | [], _, _, _, _, hce => by simp [covErr] at hce
  | pos :: rest, h, w, visited, e, hce => by
    rw [covErr] at hce
    rw [checkPositions]
    by_cases h1 : ¬ inBounds h w pos
    · rw [if_pos h1] at hce ⊢
      rw [Option.some.inj hce]
    · rw [if_neg h1] at hce ⊢
      by_cases h2 : pos ∈ visited
      · rw [if_pos h2] at hce ⊢
        rw [Option.some.inj hce]
      · rw [if_neg h2] at hce ⊢
        exact covErr_some hce

theorem covErr_none :
    ∀ {poss : List Cell} {h w : ℕ} {visited : Finset Cell},
      covErr h w visited poss = none →
      checkPositions h w visited poss = .ok (insertAll visited poss)
  | [], _, _, _, _ => rfl
  | pos :: rest, h, w, visited, hce => by
    rw [covErr] at hce
    rw [checkPositions]
    by_cases h1 : ¬ inBounds h w pos
    · rw [if_pos h1] at hce; exact absurd hce (by simp)
    · rw [if_neg h1] at hce ⊢
      by_cases h2 : pos ∈ visited
      · rw [if_pos h2] at hce; exact absurd hce (by simp)
      · rw [if_neg h2] at hce ⊢
        exact covErr_none hce

theorem covErr_append_some :
    ∀ {l1 : List Cell} (l2 : List Cell) {h w : ℕ} {visited : Finset Cell}
      {e : PuzzleError}, covErr h w visited l1 = some e →
      covErr h w visited (l1 ++ l2) = some e
  | [], _, _, _, _, _, hce => by simp [covErr] at hce
  | pos :: l1, l2, h, w, visited, e, hce => by
    rw [covErr] at hce
    rw [List.cons_append, covErr]
    by_cases h1 : ¬ inBounds h w pos
    · rw [if_pos h1] at hce ⊢
      exact hce
    · rw [if_neg h1] at hce ⊢
      by_cases h2 : pos ∈ visited
      · rw [if_pos h2] at hce ⊢
        exact hce
      · rw [if_neg h2] at hce ⊢
        exact covErr_append_some l2 hce

theorem covErr_append_none :
    ∀ {l1 : List Cell} (l2 : List Cell) {h w : ℕ} {visited : Finset Cell},
      covErr h w visited l1 = none →
      covErr h w visited (l1 ++ l2) = covErr h w (insertAll visited l1) l2
  | [], _, _, _, _, _ => rfl
  | pos :: l1, l2, h, w, visited, hce => by
    rw [covErr] at hce
    rw [List.cons_append, covErr]
    by_cases h1 : ¬ inBounds h w pos
    · rw [if_pos h1] at hce; exact absurd hce (by simp)
    · rw [if_neg h1] at hce ⊢
      by_cases h2 : pos ∈ visited
      · rw [if_pos h2] at hce; exact absurd hce (by simp)
      · rw [if_neg h2] at hce ⊢
        exact covErr_append_none l2 hce

theorem insertAll_append (visited : Finset Cell) (l1 l2 : List Cell) :
    insertAll visited (l1 ++ l2) = insertAll (insertAll visited l1) l2 := by
  unfold insertAll
  rw [List.foldl_append]

/-- Lemma: coverage validation reports the first offending position's
error kind over the concatenated paths, position by position. -/
theorem checkCoverage_of_covErr_some :
    ∀ {ts : List Thermometer} {h w : ℕ} {visited : Finset Cell}
      {e : PuzzleError},
      covErr h w visited (ts.map Thermometer.positions).flatten = some e →
      checkCoverage h w visited ts = .error e
  | [], _, _, _, _, hce => by simp [covErr] at hce
  | t :: rest, h, w, visited, e, hce => by
    rw [List.map_cons, List.flatten_cons] at hce
    rw [checkCoverage]
    cases hc1 : covErr h w visited t.positions with
    | some e' =>
      rw [covErr_append_some _ hc1] at hce
      rw [covErr_some hc1, Option.some.inj hce]
    | none =>
      rw [covErr_append_none _ hc1] at hce
      rw [covErr_none hc1]
      exact checkCoverage_of_covErr_some hce

/-- Lemma: when no position is offending, coverage validation succeeds
with exactly the inserted positions as the visited set. -/
theorem checkCoverage_of_covErr_none :
    ∀ {ts : List Thermometer} {h w : ℕ} {visited : Finset Cell},
      covErr h w visited (ts.map Thermometer.positions).flatten = none →
      checkCoverage h w visited ts
        = .ok (insertAll visited (ts.map Thermometer.positions).flatten)
  | [], _, _, _, _ => rfl
  | t :: rest, h, w, visited, hce => by
    rw [List.map_cons, List.flatten_cons] at hce ⊢
    rw [checkCoverage]
    cases hc1 : covErr h w visited t.positions with
    | some e' =>
      rw [covErr_append_some _ hc1] at hce
      exact absurd hce (by simp)
    | none =>
      rw [covErr_append_none _ hc1] at hce
      rw [covErr_none hc1, insertAll_append]
      exact checkCoverage_of_covErr_none hce

/-- C4 (amended): construction fails with the error kind of the first
violated check in execution order: the sum checks in source order (empty
sum arrays, negative sums, mismatched totals, sums exceeding dimensions),
then no-paths, then the per-path checks path by path (empty, duplicate or
non-adjacent cells), then the bounds/overlap checks position by position
over the concatenated paths, then the final coverage count — `mkPuzzle`'s
error component equals `firstErr` on every input.  In particular
mismatched totals fail before any thermometer processing, while within the
thermometer phase an earlier path's defect preempts a later path's
earlier-precedence defect. -/
theorem claim_C4 (rs cs : List ℤ) (paths : List (List Cell)) :
    constructionErr rs cs paths = firstErr rs cs paths := by
  unfold constructionErr mkPuzzle firstErr
  by_cases h1 : rs = [] ∨ cs = []
  · rw [if_pos h1, if_pos h1]
  rw [if_neg h1, if_neg h1]
  by_cases h2 : (∃ s ∈ rs, s < 0) ∨ (∃ s ∈ cs, s < 0)
  · rw [if_pos h2, if_pos h2]
  rw [if_neg h2, if_neg h2]
  by_cases h3 : rs.sum ≠ cs.sum
  · rw [if_pos h3, if_pos h3]
  rw [if_neg h3, if_neg h3]
  by_cases h4 : ∃ s ∈ rs, (cs.length : ℤ) < s
  · rw [if_pos h4, if_pos (Or.inl h4)]
  by_cases h5 : ∃ s ∈ cs, (rs.length : ℤ) < s
  · rw [if_neg h4, if_pos h5, if_pos (Or.inr h5)]
  have h45 : ¬ ((∃ s ∈ rs, (cs.length : ℤ) < s)
      ∨ (∃ s ∈ cs, (rs.length : ℤ) < s)) := by
    rintro (h | h)
    exacts [h4 h, h5 h]
  rw [if_neg h4, if_neg h5, if_neg h45]
  by_cases h6 : paths = []
  · rw [if_pos h6, if_pos h6]
  rw [if_neg h6, if_neg h6]
  cases hfind : paths.findSome? pathErr with
  | some e =>
    rw [mkThermometers_findSome_some paths 0 hfind]
  | none =>
    obtain ⟨ts, hts, hmap⟩ := mkThermometers_findSome_none paths 0 hfind
    rw [hts]
    dsimp only
    cases hcov : covErr rs.length cs.length ∅ paths.flatten with
    | some e =>
      have hcov' : covErr rs.length cs.length ∅
          (ts.map Thermometer.positions).flatten = some e := by
        rw [hmap]; exact hcov
      rw [checkCoverage_of_covErr_some hcov']
    | none =>
      have hcov' : covErr rs.length cs.length ∅
          (ts.map Thermometer.positions).flatten = none := by
        rw [hmap]; exact hcov
      rw [checkCoverage_of_covErr_none hcov', hmap]
      dsimp only
      by_cases h7 : (insertAll ∅ paths.flatten).card ≠ rs.length * cs.length
      · rw [if_pos h7, if_pos h7]
      · rw [if_neg h7, if_neg h7]

/-! ### The Solution Validator (C5, C10) -/

theorem bounded_decide_iff (P : ℕ → Prop) [DecidablePred P] (n : ℕ) :
    (∃ k ≤ n, ∀ i < n, decide (P i) = decide (i < k))
      ↔ ∃ k, ∀ i < n, (P i ↔ i < k) := by
  constructor
  · rintro ⟨k, _, hAll⟩
    exact ⟨k, fun i hi => decide_eq_decide.mp (hAll i hi)⟩
  · rintro ⟨k, hAll⟩
    refine ⟨min k n, Nat.min_le_right _ _, ?_⟩
    intro i hi
    rw [decide_eq_decide]
    rw [hAll i hi]
    omega

/-- C5: for a successfully constructed puzzle, `is_valid_solution` accepts
a candidate filled-cell set iff every thermometer's filled path positions
occupy exactly the index set below some bound, every row tally matches its
target, and every column tally matches its target. -/
theorem claim_C5 {rs cs : List ℤ} {paths : List (List Cell)}
    {pz : ThermometerPuzzle} (h : mkPuzzle rs cs paths = .ok pz)
    (filled : Finset Cell) :
    is_valid_solution pz filled = true
      ↔ (∀ t ∈ pz.thermometers, ∃ k, ∀ i < t.positions.length,
            (t.positions.getD i ((0 : ℤ), (0 : ℤ)) ∈ filled ↔ i < k))
        ∧ (∀ row < pz.height,
            (rowCount filled (row : ℤ) : ℤ) = pz.row_sums.getD row 0)
        ∧ (∀ col < pz.width,
            (colCount filled (col : ℤ) : ℤ) = pz.col_sums.getD col 0) := by
  unfold is_valid_solution
  rw [Bool.and_eq_true, Bool.and_eq_true]
  constructor
  · rintro ⟨⟨hth, hrow⟩, hcol⟩
    refine ⟨?_, ?_, ?_⟩
    · intro t ht
      have hnd := (mkPuzzle_thermometers h t ht).2.1
      have hiff := (is_valid_fill_state_iff t.positions filled hnd).mp
        (List.all_eq_true.mp hth t ht)
      exact (bounded_decide_iff _ _).mp hiff
    · intro row hrow'
      have := List.all_eq_true.mp hrow row (List.mem_range.mpr hrow')
      exact of_decide_eq_true this
    · intro col hcol'
      have := List.all_eq_true.mp hcol col (List.mem_range.mpr hcol')
      exact of_decide_eq_true this
  · rintro ⟨hth, hrow, hcol⟩
    refine ⟨⟨?_, ?_⟩, ?_⟩
    · rw [List.all_eq_true]
      intro t ht
      have hnd := (mkPuzzle_thermometers h t ht).2.1
      exact (is_valid_fill_state_iff t.positions filled hnd).mpr
        ((bounded_decide_iff _ _).mpr (hth t ht))
    · rw [List.all_eq_true]
      intro row hrow'
      exact decide_eq_true (hrow row (List.mem_range.mp hrow'))
    · rw [List.all_eq_true]
      intro col hcol'
      exact decide_eq_true (hcol col (List.mem_range.mp hcol'))

/-- The scenario-A puzzle: 2x2 grid, targets `[1,1]`/`[1,1]`, two
horizontal thermometers with bulbs at `(0,0)` and `(1,1)`. -/
def pzA : ThermometerPuzzle :=
  ⟨2, 2, [1, 1], [1, 1],
    [⟨0, [((0 : ℤ), (0 : ℤ)), (0, 1)]⟩, ⟨1, [((1 : ℤ), (1 : ℤ)), (1, 0)]⟩]⟩

/-- Concrete instantiation of `claim_C5`: on the scenario-A puzzle the
diagonal `{(0,0),(1,1)}` satisfies all three validator conditions, hence
`is_valid_solution` accepts it. -/
theorem claim_C5_witness :
    is_valid_solution pzA {((0 : ℤ), (0 : ℤ)), (1, 1)} = true := by
  have hA : mkPuzzle [1, 1] [1, 1]
      [[((0 : ℤ), (0 : ℤ)), (0, 1)], [((1 : ℤ), (1 : ℤ)), (1, 0)]]
        = Except.ok pzA := rfl
  refine (claim_C5 hA _).mpr ⟨?_, ?_, ?_⟩
  · intro t ht
    have ht' : t ∈ [(⟨0, [((0 : ℤ), (0 : ℤ)), (0, 1)]⟩ : Thermometer),
        ⟨1, [((1 : ℤ), (1 : ℤ)), (1, 0)]⟩] := ht
    rcases List.mem_cons.mp ht' with rfl | ht''
    · exact ⟨1, by decide⟩
    rcases List.mem_cons.mp ht'' with rfl | ht'''
    · exact ⟨1, by decide⟩
    · exact absurd ht''' (by simp)
  · decide
  · decide

/-- Lemma: `is_valid_fill_state` ignores filled cells that are not on the path. -/
theorem is_valid_fill_state_insert (p : List Cell) (filled : Finset Cell)
    (x : Cell) (hx : x ∉ p) :
    is_valid_fill_state p (insert x filled) = is_valid_fill_state p filled := by
  have hfilter : p.filter (fun pos => decide (pos ∈ insert x filled))
      = p.filter (fun pos => decide (pos ∈ filled)) :=
    List.filter_congr (fun pos hpos => by
      have hne : pos ≠ x := fun e => hx (e ▸ hpos)
      rw [decide_eq_decide]
      simp [Finset.mem_insert, hne])
  simp only [is_valid_fill_state, hfilter]

/-- C10: the validator's row tally counts a candidate cell whose row is in
range even when its column is out of range (and symmetrically for
columns), while the per-thermometer checks ignore such cells. -/
theorem claim_C10 {rs cs : List ℤ} {paths : List (List Cell)}
    {pz : ThermometerPuzzle} (h : mkPuzzle rs cs paths = .ok pz)
    (filled : Finset Cell) (r c : ℤ) (hmem : (r, c) ∉ filled) :
    ((0 ≤ r ∧ r < (pz.height : ℤ) ∧ (c < 0 ∨ (pz.width : ℤ) ≤ c)) →
      rowCount (insert (r, c) filled) r = rowCount filled r + 1
      ∧ ∀ t ∈ pz.thermometers,
          is_valid_fill_state t.positions (insert (r, c) filled)
            = is_valid_fill_state t.positions filled)
    ∧ ((0 ≤ c ∧ c < (pz.width : ℤ) ∧ (r < 0 ∨ (pz.height : ℤ) ≤ r)) →
      colCount (insert (r, c) filled) c = colCount filled c + 1
      ∧ ∀ t ∈ pz.thermometers,
          is_valid_fill_state t.positions (insert (r, c) filled)
            = is_valid_fill_state t.positions filled) := by
  have hout : ∀ t ∈ pz.thermometers, ¬ inBounds pz.height pz.width (r, c) →
      (r, c) ∉ t.positions := by
    intro t ht hnb hmem'
    exact hnb ((mkPuzzle_thermometers h t ht).2.2 _ hmem')
  constructor
  · rintro ⟨hr0, hrh, hc⟩
    constructor
    · unfold rowCount
      rw [Finset.filter_insert, if_pos rfl,
        Finset.card_insert_of_not_mem
          (fun hin => hmem (Finset.mem_filter.mp hin).1)]
    · intro t ht
      refine is_valid_fill_state_insert _ _ _ (hout t ht ?_)
      intro hib
      unfold inBounds at hib
      rcases hc with hc | hc
      · exact absurd hib.2.2.1 (by omega)
      · exact absurd hib.2.2.2 (by omega)
  · rintro ⟨hc0, hcw, hr⟩
    constructor
    · unfold colCount
      rw [Finset.filter_insert, if_pos rfl,
        Finset.card_insert_of_not_mem
          (fun hin => hmem (Finset.mem_filter.mp hin).1)]
    · intro t ht
      refine is_valid_fill_state_insert _ _ _ (hout t ht ?_)
      intro hib
      unfold inBounds at hib
      rcases hr with hr | hr
      · exact absurd hib.1 (by omega)
      · exact absurd hib.2.1 (by omega)

/-- The 1x1 all-zero puzzle. -/
def pzZ : ThermometerPuzzle :=
  ⟨1, 1, [0], [0], [⟨0, [((0 : ℤ), (0 : ℤ))]⟩]⟩

/-- Concrete instantiation of `claim_C10`: on the 1x1 all-zero puzzle,
inserting the out-of-grid cell `(0,5)` into the empty candidate set raises
the row-0 tally from 0 to 1. -/
theorem claim_C10_witness :
    rowCount (insert ((0 : ℤ), (5 : ℤ)) ∅) 0 = rowCount ∅ 0 + 1 := by
  have hZ : mkPuzzle [0] [0] [[((0 : ℤ), (0 : ℤ))]] = Except.ok pzZ := rfl
  exact ((claim_C10 hZ ∅ 0 5 (by decide)).1 (by constructor <;> simp [pzZ])).1

/-! ### The Solution Enumerator (C1, C2, C6, C7, C8, C9) -/

/-- C1 counterexample: on an `OPTIMAL` status, `solve` returns the
extracted filled-cell set (`Except.ok`), it does not raise. -/
theorem claim_C1_counterexample :
    solveDispatch ∅ SolverStatus.optimal = Except.ok (some ∅)
      ∧ solveDispatch ∅ SolverStatus.optimal
          ≠ Except.error SolveError.feasibleStatus
      ∧ solveDispatch ∅ SolverStatus.optimal
          ≠ Except.error SolveError.duplicateSolution :=
  ⟨rfl, fun h => Except.noConfusion h, fun h => Except.noConfusion h⟩

/-- C1 (amended): only a `FEASIBLE` status is treated as a fatal
internal-consistency failure (raises); an `OPTIMAL` status is the success
path and returns the extracted filled-cell set; every other status yields
the explicit no-solution signal. -/
theorem claim_C1 (extracted : Finset Cell) :
    solveDispatch extracted .feasible = .error .feasibleStatus
    ∧ solveDispatch extracted .optimal = .ok (some extracted)
    ∧ ∀ st : SolverStatus, st ≠ .feasible → st ≠ .optimal →
        solveDispatch extracted st = .ok none := by
  refine ⟨rfl, rfl, ?_⟩
  intro st h1 h2
  cases st
  · exact absurd rfl h2
  · exact absurd rfl h1
  all_goals rfl

/-- Concrete instantiation of `claim_C1`: an `INFEASIBLE` status yields
the no-solution signal. -/
theorem claim_C1_witness :
    solveDispatch ∅ SolverStatus.infeasible = Except.ok none :=
  (claim_C1 ∅).2.2 .infeasible (by decide) (by decide)

/-- C2 counterexample: the cut added for `S = {(0,0)}` is also violated by
the assignment filling the strict superset `{(0,0),(0,1)}`, contradicting
"satisfied by every other 0/1 assignment". -/
theorem claim_C2_counterexample :
    addSolutionCut {((0 : ℤ), (0 : ℤ))}
        = some ⟨{((0 : ℤ), (0 : ℤ))}, 0⟩
      ∧ consSat ⟨{((0 : ℤ), (0 : ℤ))}, 0⟩ {((0 : ℤ), (0 : ℤ)), (0, 1)} = false
      ∧ ({((0 : ℤ), (0 : ℤ))} : Finset Cell) ≠ {((0 : ℤ), (0 : ℤ)), (0, 1)} := by
  refine ⟨rfl, rfl, by decide⟩

/-- C2 (amended): the solution-exclusion cut added for a non-empty
previously found set `S` is violated exactly by the assignments that fill
every cell of `S` — that is, `S` itself and all its strict supersets — and
satisfied by every assignment leaving some cell of `S` unfilled (in
particular all strict subsets). -/
theorem claim_C2 (S filled : Finset Cell) (c : LinCons)
    (h : addSolutionCut S = some c) :
    consSat c filled = false ↔ S ⊆ filled := by
  unfold addSolutionCut at h
  by_cases hne : S.Nonempty
  · rw [if_pos hne] at h
    have hc : c = ⟨S, (S.card : ℤ) - 1⟩ := by cases h; rfl
    subst hc
    unfold consSat
    dsimp only
    rw [decide_eq_false_iff_not]
    have hsum : (∑ p ∈ S, cellVal filled p)
        = (S.filter (fun p => p ∈ filled)).card := by
      unfold cellVal
      rw [Finset.card_filter]
    rw [hsum]
    constructor
    · intro hlt
      have hle : (S.filter (fun p => p ∈ filled)).card ≤ S.card :=
        Finset.card_filter_le _ _
      have hcard : S.card ≤ (S.filter (fun p => p ∈ filled)).card := by omega
      have heq : S.filter (fun p => p ∈ filled) = S :=
        Finset.eq_of_subset_of_card_le (Finset.filter_subset _ _) hcard
      intro x hx
      rw [← heq] at hx
      exact (Finset.mem_filter.mp hx).2
    · intro hsub hle
      have heq : S.filter (fun p => p ∈ filled) = S :=
        Finset.filter_eq_self.mpr (fun x hx => hsub hx)
      rw [heq] at hle
      have hpos : 0 < S.card := Finset.card_pos.mpr hne
      omega
  · rw [if_neg hne] at h
    exact absurd h (by simp)

/-- Concrete instantiation of `claim_C2`: the cut for `{(0,0)}` is
satisfied by the empty assignment, which is not a superset of `{(0,0)}`. -/
theorem claim_C2_witness :
    (consSat ⟨{((0 : ℤ), (0 : ℤ))}, 0⟩ ∅ = false
      ↔ ({((0 : ℤ), (0 : ℤ))} : Finset Cell) ⊆ ∅) :=
  claim_C2 {((0 : ℤ), (0 : ℤ))} ∅ ⟨{((0 : ℤ), (0 : ℤ))}, 0⟩ rfl

/-- The scenario-D puzzle: 2x2 grid, targets `[1,1]`/`[1,1]`, two vertical
thermometers with bulbs at `(0,0)` and `(0,1)`. -/
def pzD : ThermometerPuzzle :=
  ⟨2, 2, [1, 1], [1, 1],
    [⟨0, [((0 : ℤ), (0 : ℤ)), (1, 0)]⟩, ⟨1, [((0 : ℤ), (1 : ℤ)), (1, 1)]⟩]⟩

/-- C6: the scenario-D puzzle constructs successfully, and no subset of
its grid cells passes the Solution Validator, nor satisfies the encoded
row, column and thermometer constraints — the puzzle has no solution. -/
theorem claim_C6 :
    mkPuzzle [1, 1] [1, 1]
        [[((0 : ℤ), (0 : ℤ)), (1, 0)], [((0 : ℤ), (1 : ℤ)), (1, 1)]]
      = .ok pzD
    ∧ (∀ s ∈ ({((0 : ℤ), (0 : ℤ)), (0, 1), (1, 0), (1, 1)} : Finset Cell).powerset,
        is_valid_solution pzD s = false)
    ∧ (∀ s ∈ ({((0 : ℤ), (0 : ℤ)), (0, 1), (1, 0), (1, 1)} : Finset Cell).powerset,
        constraintsSat pzD s = false) := by
  refine ⟨rfl, by decide, by decide⟩

/-- Concrete instantiation of `claim_C6`: the empty set is not a solution
of the scenario-D puzzle. -/
theorem claim_C6_witness : is_valid_solution pzD ∅ = false :=
  claim_C6.2.1 ∅ (by decide)

/-- The enumeration loop preserves pairwise distinctness of the
accumulated solutions: any normally returned list is duplicate-free. -/
theorem solveIterAux_pairwise :
    ∀ (fuel : ℕ) (oracle : ℕ → Option (Finset Cell)) (maxNum : Option ℤ)
      (it : ℕ) (acc res : List (Finset Cell)),
      acc.Pairwise (· ≠ ·) →
      solveIterAux oracle maxNum fuel it acc = some (.ok res) →
      res.Pairwise (· ≠ ·)
  | 0, _, _, _, _, _, _, h => by cases h
  | fuel + 1, oracle, maxNum, it, acc, res, hpw, h => by
    rw [solveIterAux] at h
    cases ho : oracle it with
    | none =>
      rw [ho] at h
      have hres : acc = res := by cases h; rfl
      subst hres
      exact hpw
    | some sol =>
      rw [ho] at h
      dsimp only at h
      by_cases hdup : sol ∈ acc
      · rw [if_pos hdup] at h
        exact absurd h (by simp)
      · rw [if_neg hdup] at h
        have hpw' : (acc ++ [sol]).Pairwise (· ≠ ·) := by
          rw [List.pairwise_append]
          refine ⟨hpw, by simp, ?_⟩
          intro a ha b hb
          have hb' : b = sol := by simpa using hb
          subst hb'
          exact fun e => hdup (e ▸ ha)
        by_cases hstop :
            (truthy maxNum && decide (maxNum.getD 0 ≤ (acc.length + 1 : ℤ))) = true
        · rw [if_pos hstop] at h
          have hres : acc ++ [sol] = res := by cases h; rfl
          subst hres
          exact hpw'
        · rw [if_neg hstop] at h
          exact solveIterAux_pairwise fuel oracle maxNum (it + 1) (acc ++ [sol])
            res hpw' h

/-- C7: whatever solutions the external solver produces and whatever the
maximum count, a list returned normally by `solve_iterative` is pairwise
distinct as sets — the duplicate check guarantees it. -/
theorem claim_C7 (oracle : ℕ → Option (Finset Cell)) (maxNum : Option ℤ)
    (fuel : ℕ) (res : List (Finset Cell))
    (h : solve_iterative oracle maxNum fuel = some (.ok res)) :
    res.Pairwise (· ≠ ·) :=
  solveIterAux_pairwise fuel oracle maxNum 0 [] res (by simp) h

/-- Concrete instantiation of `claim_C7`: an enumeration returning one
solution is (trivially) pairwise distinct. -/
theorem claim_C7_witness :
    List.Pairwise (· ≠ ·) [({((0 : ℤ), (0 : ℤ))} : Finset Cell)] :=
  claim_C7 (fun n => if n = 0 then some {((0 : ℤ), (0 : ℤ))} else none)
    none 2 [{((0 : ℤ), (0 : ℤ))}] rfl

/-- The accumulated-solutions list never shrinks across the loop. -/
theorem solveIterAux_length :
    ∀ (fuel : ℕ) (oracle : ℕ → Option (Finset Cell)) (maxNum : Option ℤ)
      (it : ℕ) (acc res : List (Finset Cell)),
      solveIterAux oracle maxNum fuel it acc = some (.ok res) →
      acc.length ≤ res.length
  | 0, _, _, _, _, _, h => by cases h
  | fuel + 1, oracle, maxNum, it, acc, res, h => by
    rw [solveIterAux] at h
    cases ho : oracle it with
    | none =>
      rw [ho] at h
      have hres : acc = res := by cases h; rfl
      subst hres
      exact Nat.le_refl _
    | some sol =>
      rw [ho] at h
      dsimp only at h
      by_cases hdup : sol ∈ acc
      · rw [if_pos hdup] at h
        exact absurd h (by simp)
      · rw [if_neg hdup] at h
        by_cases hstop :
            (truthy maxNum && decide (maxNum.getD 0 ≤ (acc.length + 1 : ℤ))) = true
        · rw [if_pos hstop] at h
          have hres : acc ++ [sol] = res := by cases h; rfl
          subst hres
          simp
        · rw [if_neg hstop] at h
          have := solveIterAux_length fuel oracle maxNum (it + 1) (acc ++ [sol]) res h
          simp at this
          omega

/-- C9: passing `max_num_solutions = 0` behaves exactly like passing
`None` (unbounded enumeration), because the maximum-count test uses
truthiness; consequently with a first solution available the result is
never the empty list. -/
theorem claim_C9 :
    (∀ (oracle : ℕ → Option (Finset Cell)) (fuel it : ℕ)
        (acc : List (Finset Cell)),
      solveIterAux oracle (some 0) fuel it acc
        = solveIterAux oracle none fuel it acc)
    ∧ (∀ (oracle : ℕ → Option (Finset Cell)) (s : Finset Cell) (fuel : ℕ)
        (res : List (Finset Cell)), oracle 0 = some s →
        solve_iterative oracle (some 0) fuel = some (.ok res) → res ≠ []) := by
  have key : ∀ (fuel : ℕ) (oracle : ℕ → Option (Finset Cell)) (it : ℕ)
      (acc : List (Finset Cell)),
      solveIterAux oracle (some 0) fuel it acc
        = solveIterAux oracle none fuel it acc := by
    intro fuel
    induction fuel with
    | zero => intro oracle it acc; rfl
    | succ n ih =>
      intro oracle it acc
      rw [solveIterAux, solveIterAux]
      cases ho : oracle it with
      | none => rfl
      | some sol =>
        dsimp only
        by_cases hdup : sol ∈ acc
        · rw [if_pos hdup, if_pos hdup]
        · rw [if_neg hdup, if_neg hdup,
            show truthy (some 0) = false from rfl,
            show truthy none = false from rfl]
          simp only [Bool.false_and, Bool.false_eq_true, if_false]
          exact ih oracle (it + 1) (acc ++ [sol])
  refine ⟨fun oracle fuel it acc => key fuel oracle it acc, ?_⟩
  intro oracle s fuel res ho h
  cases fuel with
  | zero => exact absurd h (by rw [solve_iterative]; exact (by simp [solveIterAux]))
  | succ n =>
    rw [solve_iterative, solveIterAux, ho] at h
    dsimp only at h
    rw [if_neg (by simp)] at h
    rw [show truthy (some 0) = false from rfl] at h
    simp only [Bool.false_and, Bool.false_eq_true, if_false] at h
    have hlen := solveIterAux_length n oracle (some 0) 1 [s] res h
    simp only [List.length_cons, List.length_nil] at hlen
    intro hnil
    rw [hnil] at hlen
    simp at hlen

/-- Concrete instantiation of `claim_C9`: with an immediately exhausted
solver, `max_num_solutions = 0` and `None` give the same run. -/
theorem claim_C9_witness :
    solveIterAux (fun _ => none) (some 0) 1 0 []
      = solveIterAux (fun _ => none) none 1 0 [] :=
  claim_C9.1 (fun _ => none) 1 0 []

/-- C8: the cut for the empty solution adds no constraint; on the 1x1
all-zero puzzle (whose unique satisfying assignment over the grid is the
empty set) the enumeration therefore sees the same solution twice and
raises the duplicate-solution error instead of terminating normally, for
an unbounded maximum or any maximum at least 2. -/
theorem claim_C8 :
    addSolutionCut ∅ = none
    ∧ mkPuzzle [0] [0] [[((0 : ℤ), (0 : ℤ))]] = .ok pzZ
    ∧ (∀ s ∈ ({((0 : ℤ), (0 : ℤ))} : Finset Cell).powerset,
        (constraintsSat pzZ s = true ↔ s = ∅))
    ∧ (∀ (oracle : ℕ → Option (Finset Cell)) (maxNum : Option ℤ) (fuel : ℕ),
        oracle 0 = some ∅ → oracle 1 = some ∅ →
        (maxNum = none ∨ ∃ m, maxNum = some m ∧ 2 ≤ m) →
        solveIterAux oracle maxNum (fuel + 2) 0 []
          = some (.error .duplicateSolution)) := by
  refine ⟨rfl, rfl, by decide, ?_⟩
  intro oracle maxNum fuel ho0 ho1 hmax
  have hstop : (truthy maxNum
      && decide (maxNum.getD 0 ≤ (([] : List (Finset Cell)).length + 1 : ℤ)))
        = false := by
    rcases hmax with rfl | ⟨m, rfl, hm⟩
    · rfl
    · show (decide (m ≠ 0) && decide (m ≤ (0 + 1 : ℤ))) = false
      rw [decide_eq_false (show ¬ m ≤ (0 + 1 : ℤ) by omega), Bool.and_false]
  rw [solveIterAux, ho0]
  dsimp only
  rw [if_neg (by simp), hstop]
  simp only [Bool.false_eq_true, if_false]
  rw [solveIterAux, ho1]
  dsimp only
  rw [if_pos (by simp)]

/-- Concrete instantiation of `claim_C8`: the duplicate-solution failure
at the concrete oracle returning the empty set forever. -/
theorem claim_C8_witness :
    solveIterAux (fun _ => some ∅) none 2 0 []
      = some (.error .duplicateSolution) :=
  claim_C8.2.2.2 (fun _ => some ∅) none 0 rfl rfl (Or.inl rfl)

end Thermo
